import Mathlib

/-!
Verification of the TrendMuse trend-scoring and aggregation core.

The repository is a Next.js frontend plus a FastAPI backend; only the
frontend sources are available here, so the backend scoring/aggregation
functions are modelled from the specification (each such definition is
marked `Modelled from the spec:`).  Frontend logic (the API client, the
GeneratorPage record mapping, the trends-page sorts, the ImageGallery
discount badge and the trending-page fallback grouping) is embedded
directly from the TypeScript source.
-/

namespace TrendMuse

/-- The four direction labels of `FashionItem.trend_level`
(`src/frontend/src/lib/api.ts`, line 23: the TypeScript union
`"hot" | "rising" | "stable" | "declining"`). -/
inductive TrendLevel where
  | hot
  | rising
  | stable
  | declining
deriving DecidableEq

/-- Product record shape from `src/frontend/src/lib/api.ts` lines 8-27
(`FashionItem`).  Prices are embedded as rationals, the timestamp as a
rational number of epoch days. -/
structure FashionItem where
  id : String
  name : String
  price : ℚ
  currency : String
  original_price : Option ℚ
  image_url : String
  product_url : String
  category : String
  brand : String
  reviews_count : ℕ
  rating : ℚ
  sales_count : ℕ
  trend_score : ℚ
  trend_level : TrendLevel
  colors : List String
  tags : List String
  scraped_at : ℚ
deriving DecidableEq

/-- Modelled from the spec: the level mapping of the backend Trend Scorer
(spec 4.2, not under `src/`): score ≥ 85 → hot; ≥ 70 → rising;
≥ 50 → stable; else declining. -/
def levelOf (score : ℚ) : TrendLevel :=
  if 85 ≤ score then TrendLevel.hot
  else if 70 ≤ score then TrendLevel.rising
  else if 50 ≤ score then TrendLevel.stable
  else TrendLevel.declining

/-- Modelled from the spec: review volume signal of the backend scorer,
`min(reviews_count / review_saturation_constant, 1.0)` (spec 4.2). -/
def reviewSignal (reviews : ℕ) (sat : ℚ) : ℚ :=
  min ((reviews : ℚ) / sat) 1

/-- Modelled from the spec: rating signal, `rating / 5.0` (spec 4.2). -/
def ratingSignal (rating : ℚ) : ℚ :=
  rating / 5

/-- Modelled from the spec: sales signal,
`min(sales_count / sales_saturation_constant, 1.0)` (spec 4.2). -/
def salesSignal (sales : ℕ) (sat : ℚ) : ℚ :=
  min ((sales : ℚ) / sat) 1

/-- Modelled from the spec: discount signal,
`(original_price - price) / original_price if original_price present
else 0` (spec 4.2). -/
def discountSignal (price : ℚ) (originalPrice : Option ℚ) : ℚ :=
  match originalPrice with
  | none => 0
  | some o => (o - price) / o

/-- Modelled from the spec: recency signal, decaying linearly to 0 over a
fixed lookback window based on the age of `scraped_at` (spec 4.2). -/
def recencySignal (ageDays window : ℚ) : ℚ :=
  max (1 - ageDays / window) 0

/-- The tunable policy surface of the backend scorer: the two saturation
constants and the recency lookback window (spec 4.2 leaves their values
open, so they are carried as parameters). -/
structure ScoreConfig where
  reviewSat : ℚ
  salesSat : ℚ
  window : ℚ
deriving DecidableEq

/-- The scorer input: the record fields the score depends on.  `age_days`
is the age of `scraped_at` at scoring time; per the spec it is part of
the input (spec 8, idempotence). -/
structure ScoreInput where
  reviews_count : ℕ
  rating : ℚ
  sales_count : ℕ
  price : ℚ
  original_price : Option ℚ
  age_days : ℚ
deriving DecidableEq

/-- Modelled from the spec: the backend trend score (spec 4.2, not under
`src/`): `100 ×` the weighted average of the five signals with the fixed
example weights reviews 0.25, rating 0.20, sales 0.30, discount 0.10,
recency 0.15. -/
def trendScore (cfg : ScoreConfig) (r : ScoreInput) : ℚ :=
  100 * (1/4 * reviewSignal r.reviews_count cfg.reviewSat
       + 1/5 * ratingSignal r.rating
       + 3/10 * salesSignal r.sales_count cfg.salesSat
       + 1/10 * discountSignal r.price r.original_price
       + 3/20 * recencySignal r.age_days cfg.window)

/-- A sample scorer configuration used by witnesses. -/
def demoCfg : ScoreConfig := ⟨1000, 10000, 30⟩

/-- A sample scorer input used by witnesses. -/
def demoInput : ScoreInput := ⟨200, 4, 500, 20, some 40, 3⟩

/-- JavaScript `x || d` for an optional numeric value: `undefined` and
`0` (the falsy numbers arising here) fall back to the default. -/
def jsOrNum (v : Option ℚ) (d : ℚ) : ℚ :=
  match v with
  | none => d
  | some x => if x = 0 then d else x

/-- JavaScript `s || d` for an optional string: `undefined` and the empty
string fall back to the default. -/
def jsOrStr (v : Option String) (d : String) : String :=
  match v with
  | none => d
  | some s => if s = "" then d else s

/-- JavaScript `b || false` for an optional boolean. -/
def jsOrBool (v : Option Bool) : Bool :=
  match v with
  | none => false
  | some b => b

/-- Raw database item consumed by `GeneratorPage.loadData`
(src/unnamed/part_000 lines 726-742); the fields the mapping reads,
optional where the code guards with `||`. -/
structure RawDbItem where
  id : String
  name : String
  price : Option ℚ
  image_url : String
  product_url : Option String
  category : Option String
  brand : Option String
  source : Option String
deriving DecidableEq

/-- The `GeneratorPage.loadData` item mapping (src/unnamed/part_000 lines
726-742): converts a raw database item to the `FashionItem` shape.  The
TypeScript object literal carries neither `original_price` nor
`scraped_at`; they are embedded as `none` and `0`. -/
def mapDbItem (item : RawDbItem) : FashionItem :=
  { id := item.id
    name := item.name
    price := jsOrNum item.price 0
    currency := "USD"
    original_price := none
    image_url := item.image_url
    product_url := jsOrStr item.product_url ""
    category := jsOrStr item.category "other"
    brand := jsOrStr item.brand (jsOrStr item.source "")
    reviews_count := 0
    rating := 0
    sales_count := 0
    trend_score := 50
    trend_level := TrendLevel.stable
    colors := []
    tags := []
    scraped_at := 0 }

/-- A raw database item with every optional field missing. -/
def rawAllMissing : RawDbItem :=
  ⟨"1", "Item", none, "img.jpg", none, none, none, none⟩

/-- Discount badge percent of `ImageGallery` (src/unnamed/part_004 lines
73-80): `Math.round((1 - item.price / item.original_price) * 100)`.
Mathlib `round` (that is, ⌊x + 1/2⌋) has exactly the JavaScript
`Math.round` semantics: round half toward positive infinity. -/
def discountPercent (price originalPrice : ℚ) : ℤ :=
  round ((1 - price / originalPrice) * 100)

/-- Options of `converter.convert` (src/frontend/src/lib/api.ts lines
240-247), each optional. -/
structure ConvertOptions where
  style : Option String
  detailLevel : Option ℚ
  lineThickness : Option ℚ
  includeMeasurements : Option Bool
deriving DecidableEq

/-- JSON body sent by `converter.convert` (api.ts lines 252-258). -/
structure ConvertRequestBody where
  source_image_id : String
  style : String
  detail_level : ℚ
  line_thickness : ℚ
  include_measurements : Bool
deriving DecidableEq

/-- `converter.convert` body construction (api.ts lines 252-258):
`style: options?.style || "technical"`, `detail_level:
options?.detailLevel || 0.5`, `line_thickness: options?.lineThickness ||
1.0`, `include_measurements: options?.includeMeasurements || false`. -/
def convertBody (sourceImageId : String) (o : ConvertOptions) : ConvertRequestBody :=
  { source_image_id := sourceImageId
    style := jsOrStr o.style "technical"
    detail_level := jsOrNum o.detailLevel (1/2)
    line_thickness := jsOrNum o.lineThickness 1
    include_measurements := jsOrBool o.includeMeasurements }

/-- Color palette option of `generator.generate` (api.ts line 177). -/
structure ColorPalette where
  primary : String
  secondary : Option String
  accent : Option String
deriving DecidableEq

/-- Options of `generator.generate` (api.ts lines 173-179). -/
structure GenerateOptions where
  style : Option String
  variationStrength : Option ℚ
  numVariations : Option ℚ
  colorPalette : Option ColorPalette
  promptAdditions : Option String
deriving DecidableEq

/-- JSON body sent by `generator.generate` (api.ts lines 184-191). -/
structure GenerateRequestBody where
  source_image_id : String
  style : String
  variation_strength : ℚ
  num_variations : ℚ
  color_palette : Option ColorPalette
  prompt_additions : Option String
deriving DecidableEq

/-- `generator.generate` body construction (api.ts lines 184-191):
`style: options?.style || "minimalist"`, `variation_strength:
options?.variationStrength || 0.5`, `num_variations:
options?.numVariations || 4`, palette and prompt additions passed
through. -/
def generateBody (sourceImageId : String) (o : GenerateOptions) : GenerateRequestBody :=
  { source_image_id := sourceImageId
    style := jsOrStr o.style "minimalist"
    variation_strength := jsOrNum o.variationStrength (1/2)
    num_variations := jsOrNum o.numVariations 4
    color_palette := o.colorPalette
    prompt_additions := o.promptAdditions }

/-- Stable insertion step: `bef x y` means x must come strictly before y;
on ties (`bef` false both ways) the inserted element lands after the
elements already present.  Used to embed JavaScript
`Array.prototype.sort`, which is stable and consistent with its
comparator, so any stable sort for the same comparator produces the same
output. -/
def insertOrd {α : Type _} (bef : α → α → Bool) (x : α) : List α → List α
  | [] => [x]
  | y :: ys => if bef x y then x :: y :: ys else y :: insertOrd bef x ys

/-- Stable sort by insertion in input order. -/
def sortOrd {α : Type _} (bef : α → α → Bool) (l : List α) : List α :=
  l.foldl (fun acc x => insertOrd bef x acc) []

/-- Comparator of the trends-page by_source and by_category sorts
(src/frontend/src/app/trends/page.tsx lines 82 and 97):
`.sort((a, b) => b[1] - a[1])` on `Object.entries`, i.e. a precedes b
exactly when its count is strictly larger. -/
def befCount (a b : String × ℕ) : Bool :=
  decide (b.2 < a.2)

/-- The trends-page sort: stable descending sort of (key, count) entries
by count. -/
def sortByCountDesc (l : List (String × ℕ)) : List (String × ℕ) :=
  sortOrd befCount l

/-- The ordering claim C4 asserts for this code: descending by count with
ties broken by key name ascending (the cited entries carry no average
trend score at all, so the middle tie-break is vacuous). -/
def claimOrderC4 (l : List (String × ℕ)) : Prop :=
  l.Pairwise fun a b => b.2 < a.2 ∨ (a.2 = b.2 ∧ a.1 < b.1)

/-- Rounding to one decimal place, `round (10·q) / 10`; Mathlib `round`
is ⌊x + 1/2⌋, the usual round-half-up. -/
def round1 (q : ℚ) : ℚ :=
  ((round (10 * q) : ℤ) : ℚ) / 10

/-- Modelled from the spec: a Category/Color/Tag Aggregate (spec 3, 4.3,
not under `src/`): a grouping key with count, percentage of total and
average trend score over the group. -/
structure Aggregate where
  key : String
  count : ℕ
  percentage : ℚ
  avg_score : ℚ
deriving DecidableEq

/-- Modelled from the spec: the aggregate ordering of spec 4.3 —
descending count, ties by descending average trend score, final tie by
key name ascending. -/
def befAggregate (a b : Aggregate) : Bool :=
  decide (b.count < a.count ∨ (a.count = b.count ∧
    (b.avg_score < a.avg_score ∨ (a.avg_score = b.avg_score ∧ a.key < b.key))))

/-- Modelled from the spec: the aggregate built for one distinct key
(spec 4.3): count, percentage = count / total × 100 rounded to one
decimal, and the unweighted mean trend score of the group. -/
def groupFor (records : List (String × ℚ)) (k : String) : Aggregate :=
  let grp := records.filter fun r => r.1 == k
  { key := k
    count := grp.length
    percentage := round1 ((grp.length : ℚ) / (records.length : ℚ) * 100)
    avg_score := (grp.map Prod.snd).sum / (grp.length : ℚ) }

/-- Modelled from the spec: the backend `aggregate` operation (spec 4.3,
not under `src/`).  Records arrive as (key, trend score) pairs with the
grouping key selector already applied; the result has one aggregate per
distinct key, sorted by the spec ordering. -/
def aggregate (records : List (String × ℚ)) : List Aggregate :=
  sortOrd befAggregate
    (((records.map Prod.fst).dedup).map (groupFor records))

/-- Six records with distinct keys and distinct scores: each group gets
percentage round1(100/6) = 16.7, which sums to 100.2. -/
def demoRecords6 : List (String × ℚ) :=
  [("a", 10), ("b", 20), ("c", 30), ("d", 40), ("e", 50), ("f", 60)]

/-- Product shape of the trending page
(src/frontend/src/app/trending/page.tsx lines 5-14). -/
structure TProduct where
  id : String
  name : String
  price : ℚ
  source : String
  image_url : String
  product_url : String
  category : Option String
  brand : Option String
deriving DecidableEq

/-- Grouping key of the fallback grouping: `p.source || 'unknown'`
(trending/page.tsx line 57); the empty string is falsy. -/
def keyOf (p : TProduct) : String :=
  if p.source = "" then "unknown" else p.source

/-- If `pat` is a prefix of the list, return the remainder after it. -/
def dropMatch : List Char → List Char → Option (List Char)
  | [], cs => some cs
  | _ :: _, [] => none
  | a :: as, c :: cs => if a = c then dropMatch as cs else none

/-- Replace the first occurrence of `pat` by `rep`, on character lists. -/
def replFirst (pat rep : List Char) : List Char → List Char
  | [] => []
  | c :: cs =>
      match dropMatch pat (c :: cs) with
      | some rest => rep ++ rest
      | none => c :: replFirst pat rep cs

/-- JavaScript `String.prototype.replace` with a string pattern: replaces
only the first occurrence. -/
def replaceFirst (s pat rep : String) : String :=
  String.mk (replFirst pat.data rep.data s.data)

/-- Display name of a group:
`source.replace('.com', '').replace('www.', '')`
(trending/page.tsx line 60). -/
def brandNameOf (source : String) : String :=
  replaceFirst (replaceFirst source ".com" "") "www." ""

/-- A brand group of the trending page (trending/page.tsx lines 16-20). -/
structure BrandGroup where
  brand_name : String
  total_count : ℕ
  products : List TProduct
deriving DecidableEq

/-- A freshly created group (trending/page.tsx lines 59-63). -/
def newGroup (k : String) : BrandGroup :=
  { brand_name := brandNameOf k, total_count := 0, products := [] }

/-- The per-product group update (trending/page.tsx lines 65-68): push
the product while fewer than 10 are stored, always bump the count. -/
def pushProduct (g : BrandGroup) (p : TProduct) : BrandGroup :=
  { g with
    products := if g.products.length < 10 then g.products ++ [p] else g.products
    total_count := g.total_count + 1 }

/-- One iteration of the fallback grouping loop (trending/page.tsx lines
56-69) over an association list that mirrors the JavaScript object's
string-key insertion order: a missing key is appended at the end, then
the entry for the product's key is updated. -/
def stepGroup (st : List (String × BrandGroup)) (p : TProduct) :
    List (String × BrandGroup) :=
  (if st.any fun e => e.1 == keyOf p then st
   else st ++ [(keyOf p, newGroup (keyOf p))]).map
    fun e => if e.1 == keyOf p then (e.1, pushProduct e.2 p) else e

/-- The fallback grouping of `loadTrendingProducts`
(trending/page.tsx lines 53-70). -/
def groupBySource (ps : List TProduct) : List (String × BrandGroup) :=
  ps.foldl stepGroup []

/-- Invariant tying the grouping state to the processed prefix of the
product list. -/
def GroupInv (pre : List TProduct) (st : List (String × BrandGroup)) : Prop :=
  (st.map Prod.fst).Nodup ∧
  (∀ e ∈ st, e.2.total_count = pre.countP (fun p => keyOf p == e.1) ∧
    e.2.products = (pre.filter fun p => keyOf p == e.1).take 10) ∧
  (st.map fun e => e.2.total_count).sum = pre.length ∧
  (∀ p ∈ pre, ∃ e ∈ st, e.1 = keyOf p)

/-- Demo products for witnesses: two from the same store, one with an
empty source. -/
def demoP1 : TProduct := ⟨"1", "A", 1, "x.com", "", "", none, none⟩

/-- Second demo product. -/
def demoP2 : TProduct := ⟨"2", "B", 2, "x.com", "", "", none, none⟩

/-- Third demo product, with empty source. -/
def demoP3 : TProduct := ⟨"3", "C", 3, "", "", "", none, none⟩

/-- Demo product list. -/
def demoPs : List TProduct := [demoP1, demoP2, demoP3]

lemma trendLevel_cases (l : TrendLevel) :
    l = TrendLevel.hot ∨ l = TrendLevel.rising ∨ l = TrendLevel.stable ∨
      l = TrendLevel.declining := by
  cases l <;> simp

lemma reviewSignal_bounds (reviews : ℕ) (sat : ℚ) (hs : 0 < sat) :
    0 ≤ reviewSignal reviews sat ∧ reviewSignal reviews sat ≤ 1 := by
  unfold reviewSignal
  exact ⟨le_min (div_nonneg (Nat.cast_nonneg _) hs.le) zero_le_one, min_le_right _ _⟩

lemma salesSignal_bounds (sales : ℕ) (sat : ℚ) (hs : 0 < sat) :
    0 ≤ salesSignal sales sat ∧ salesSignal sales sat ≤ 1 := by
  unfold salesSignal
  exact ⟨le_min (div_nonneg (Nat.cast_nonneg _) hs.le) zero_le_one, min_le_right _ _⟩

lemma ratingSignal_bounds (rating : ℚ) (h0 : 0 ≤ rating) (h5 : rating ≤ 5) :
    0 ≤ ratingSignal rating ∧ ratingSignal rating ≤ 1 := by
  unfold ratingSignal
  constructor
  · exact div_nonneg h0 (by norm_num)
  · rw [div_le_one (by norm_num : (0:ℚ) < 5)]; exact h5

lemma discountSignal_bounds (price : ℚ) (op : Option ℚ) (hp : 0 ≤ price)
    (hop : ∀ o, op = some o → price ≤ o) :
    0 ≤ discountSignal price op ∧ discountSignal price op ≤ 1 := by
  cases op with
  | none => simp [discountSignal]
  | some o =>
      have hpo : price ≤ o := hop o rfl
      by_cases ho : o = 0
      · subst ho
        simp [discountSignal]
      · have ho' : 0 < o := lt_of_le_of_ne (hp.trans hpo) (Ne.symm ho)
        unfold discountSignal
        constructor
        · exact div_nonneg (by linarith) ho'.le
        · rw [div_le_one ho']; linarith

lemma recencySignal_bounds (age window : ℚ) (ha : 0 ≤ age) (hw : 0 < window) :
    0 ≤ recencySignal age window ∧ recencySignal age window ≤ 1 := by
  unfold recencySignal
  constructor
  · exact le_max_right _ _
  · refine max_le ?_ zero_le_one
    have : 0 ≤ age / window := div_nonneg ha hw.le
    linarith

/-- C1: the level is `hot` iff score ≥ 85, `rising` iff 70 ≤ score < 85,
`stable` iff 50 ≤ score < 70, and `declining` iff score < 50. -/
theorem level_thresholds_iff (s : ℚ) :
    (levelOf s = TrendLevel.hot ↔ 85 ≤ s) ∧
    (levelOf s = TrendLevel.rising ↔ 70 ≤ s ∧ s < 85) ∧
    (levelOf s = TrendLevel.stable ↔ 50 ≤ s ∧ s < 70) ∧
    (levelOf s = TrendLevel.declining ↔ s < 50) := by
  unfold levelOf
  split_ifs with h1 h2 h3
  · refine ⟨iff_of_true rfl h1, iff_of_false (by simp) ?_,
      iff_of_false (by simp) ?_, iff_of_false (by simp) ?_⟩
    · rintro ⟨-, h⟩; linarith
    · rintro ⟨-, h⟩; linarith
    · intro h; linarith
  · refine ⟨iff_of_false (by simp) h1, iff_of_true rfl ⟨h2, not_le.1 h1⟩,
      iff_of_false (by simp) ?_, iff_of_false (by simp) ?_⟩
    · rintro ⟨-, h⟩; linarith
    · intro h; linarith
  · refine ⟨iff_of_false (by simp) h1, iff_of_false (by simp) ?_,
      iff_of_true rfl ⟨h3, not_le.1 h2⟩, iff_of_false (by simp) ?_⟩
    · rintro ⟨h, -⟩; exact h2 h
    · intro h; linarith
  · refine ⟨iff_of_false (by simp) h1, iff_of_false (by simp) ?_,
      iff_of_false (by simp) ?_, iff_of_true rfl (not_le.1 h3)⟩
    · rintro ⟨h, -⟩; exact h2 h
    · rintro ⟨h, -⟩; exact h3 h

/-- C2: for every valid record the trend score lies in [0, 100], and the
direction label — both the `trend_level` field of a `FashionItem` and the
level derived from the score — is one of exactly the four values hot,
rising, stable, declining. -/
theorem score_in_range_and_level_in_enum (cfg : ScoreConfig) (r : ScoreInput)
    (hrs : 0 < cfg.reviewSat) (hss : 0 < cfg.salesSat) (hw : 0 < cfg.window)
    (hr0 : 0 ≤ r.rating) (hr5 : r.rating ≤ 5) (hp : 0 ≤ r.price)
    (hop : ∀ o, r.original_price = some o → r.price ≤ o) (ha : 0 ≤ r.age_days) :
    0 ≤ trendScore cfg r ∧ trendScore cfg r ≤ 100 ∧
    (∀ it : FashionItem, it.trend_level = TrendLevel.hot ∨
      it.trend_level = TrendLevel.rising ∨ it.trend_level = TrendLevel.stable ∨
      it.trend_level = TrendLevel.declining) ∧
    (levelOf (trendScore cfg r) = TrendLevel.hot ∨
      levelOf (trendScore cfg r) = TrendLevel.rising ∨
      levelOf (trendScore cfg r) = TrendLevel.stable ∨
      levelOf (trendScore cfg r) = TrendLevel.declining) := by
  obtain ⟨ha1, hb1⟩ := reviewSignal_bounds r.reviews_count cfg.reviewSat hrs
  obtain ⟨ha2, hb2⟩ := ratingSignal_bounds r.rating hr0 hr5
  obtain ⟨ha3, hb3⟩ := salesSignal_bounds r.sales_count cfg.salesSat hss
  obtain ⟨ha4, hb4⟩ := discountSignal_bounds r.price r.original_price hp hop
  obtain ⟨ha5, hb5⟩ := recencySignal_bounds r.age_days cfg.window ha hw
  refine ⟨?_, ?_, fun it => trendLevel_cases it.trend_level, trendLevel_cases _⟩
  · unfold trendScore; linarith
  · unfold trendScore; linarith

/-- Witness for C2 at a concrete configuration and record. -/
theorem score_in_range_witness :
    0 ≤ trendScore demoCfg demoInput ∧ trendScore demoCfg demoInput ≤ 100 :=
  ⟨(score_in_range_and_level_in_enum demoCfg demoInput (by norm_num [demoCfg])
      (by norm_num [demoCfg]) (by norm_num [demoCfg]) (by norm_num [demoInput])
      (by norm_num [demoInput]) (by norm_num [demoInput])
      (by intro o h; simp only [demoInput, Option.some.injEq] at h
          rw [← h]; norm_num [demoInput])
      (by norm_num [demoInput])).1,
   (score_in_range_and_level_in_enum demoCfg demoInput (by norm_num [demoCfg])
      (by norm_num [demoCfg]) (by norm_num [demoCfg]) (by norm_num [demoInput])
      (by norm_num [demoInput]) (by norm_num [demoInput])
      (by intro o h; simp only [demoInput, Option.some.injEq] at h
          rw [← h]; norm_num [demoInput])
      (by norm_num [demoInput])).2.1⟩

/-- C8: scoring is deterministic — two records whose fields (including
the scraped-at derived age, which is part of the input) coincide receive
the same score and the same level; the score depends on nothing but the
listed inputs. -/
theorem score_deterministic (cfg : ScoreConfig) (r1 r2 : ScoreInput)
    (h1 : r1.reviews_count = r2.reviews_count) (h2 : r1.rating = r2.rating)
    (h3 : r1.sales_count = r2.sales_count) (h4 : r1.price = r2.price)
    (h5 : r1.original_price = r2.original_price) (h6 : r1.age_days = r2.age_days) :
    trendScore cfg r1 = trendScore cfg r2 ∧
    levelOf (trendScore cfg r1) = levelOf (trendScore cfg r2) := by
  have hr : r1 = r2 := by cases r1; cases r2; simp_all
  rw [hr]
  exact ⟨rfl, rfl⟩

/-- Witness for C8: rescoring the demo record yields the same result. -/
theorem score_deterministic_witness :
    trendScore demoCfg demoInput = trendScore demoCfg demoInput ∧
    levelOf (trendScore demoCfg demoInput) = levelOf (trendScore demoCfg demoInput) :=
  score_deterministic demoCfg demoInput demoInput rfl rfl rfl rfl rfl rfl

lemma jsOrNum_ne_zero (v : Option ℚ) (d : ℚ) (hd : d ≠ 0) : jsOrNum v d ≠ 0 := by
  unfold jsOrNum
  cases v with
  | none => exact hd
  | some x =>
      dsimp only
      split_ifs with h
      · exact hd
      · exact h

/-- C3 counterexample: for an item with every optional field missing, the
GeneratorPage mapping sets the category to "other" — neither empty nor
"unknown" — and sets the missing rating to 0, which is not the neutral
midpoint 2.5 of the 0–5 rating scale. -/
theorem normalization_defaults_counterexample :
    (mapDbItem rawAllMissing).category ≠ "" ∧
    (mapDbItem rawAllMissing).category ≠ "unknown" ∧
    (mapDbItem rawAllMissing).rating = 0 ∧ (0 : ℚ) ≠ 5 / 2 := by
  refine ⟨by decide, by decide, rfl, by norm_num⟩

/-- C3 amended: the GeneratorPage mapping defaults a missing price to 0;
fixes reviews_count, rating and sales_count to 0, the trend score to the
neutral midpoint 50 with level stable, currency to "USD", colors and tags
to empty lists; defaults a missing product_url to "" and a missing brand
to the source, then ""; and defaults a missing category to "other". -/
theorem generator_mapping_defaults (it : RawDbItem) :
    (it.price = none → (mapDbItem it).price = 0) ∧
    (mapDbItem it).currency = "USD" ∧
    (it.product_url = none → (mapDbItem it).product_url = "") ∧
    (it.category = none → (mapDbItem it).category = "other") ∧
    (it.brand = none → it.source = none → (mapDbItem it).brand = "") ∧
    (mapDbItem it).reviews_count = 0 ∧
    (mapDbItem it).rating = 0 ∧
    (mapDbItem it).sales_count = 0 ∧
    (mapDbItem it).trend_score = 50 ∧
    (mapDbItem it).trend_level = TrendLevel.stable ∧
    (mapDbItem it).colors = [] ∧
    (mapDbItem it).tags = [] := by
  refine ⟨fun h => by simp [mapDbItem, jsOrNum, h], rfl,
    fun h => by simp [mapDbItem, jsOrStr, h],
    fun h => by simp [mapDbItem, jsOrStr, h],
    fun h1 h2 => by simp [mapDbItem, jsOrStr, h1, h2],
    rfl, rfl, rfl, rfl, rfl, rfl, rfl⟩

/-- Witness for the amended C3 at the all-missing raw item. -/
theorem generator_mapping_defaults_witness :
    (mapDbItem rawAllMissing).price = 0 ∧
    (mapDbItem rawAllMissing).product_url = "" ∧
    (mapDbItem rawAllMissing).category = "other" ∧
    (mapDbItem rawAllMissing).brand = "" :=
  ⟨(generator_mapping_defaults rawAllMissing).1 rfl,
   (generator_mapping_defaults rawAllMissing).2.2.1 rfl,
   (generator_mapping_defaults rawAllMissing).2.2.2.1 rfl,
   (generator_mapping_defaults rawAllMissing).2.2.2.2.1 rfl rfl⟩

/-- C7: the discount signal is `(original_price - price) / original_price`
when the original price is present and 0 when absent, and the ImageGallery
badge percent equals `round (100 * (original_price - price) /
original_price)` whenever the original price is present and greater than
the (nonnegative) price. -/
theorem discount_signal_and_badge (price o : ℚ) (hp : 0 ≤ price) (hlt : price < o) :
    discountSignal price none = 0 ∧
    discountSignal price (some o) = (o - price) / o ∧
    discountPercent price o = round (100 * (o - price) / o) := by
  have ho : o ≠ 0 := (lt_of_le_of_lt hp hlt).ne.symm
  refine ⟨rfl, rfl, ?_⟩
  unfold discountPercent
  congr 1
  field_simp
  ring

/-- Witness for C7: a 20-priced item with original price 40 shows a 50%
discount badge. -/
theorem discount_badge_witness :
    discountPercent 20 40 = round ((100 : ℚ) * (40 - 20) / 40) :=
  (discount_signal_and_badge 20 40 (by norm_num) (by norm_num)).2.2

/-- C9: falsy option values are replaced by the documented defaults —
`detailLevel = 0` sends 0.5, `lineThickness = 0` sends 1.0,
`variationStrength = 0` sends 0.5 — so no request carries a zero value
for these parameters. -/
theorem falsy_options_replaced_by_defaults :
    (∀ id o, o.detailLevel = some 0 → (convertBody id o).detail_level = 1 / 2) ∧
    (∀ id o, o.lineThickness = some 0 → (convertBody id o).line_thickness = 1) ∧
    (∀ id o, o.variationStrength = some 0 →
      (generateBody id o).variation_strength = 1 / 2) ∧
    (∀ id o, (convertBody id o).detail_level ≠ 0) ∧
    (∀ id o, (convertBody id o).line_thickness ≠ 0) ∧
    (∀ id o, (generateBody id o).variation_strength ≠ 0) := by
  refine ⟨fun id o h => by simp [convertBody, jsOrNum, h],
    fun id o h => by simp [convertBody, jsOrNum, h],
    fun id o h => by simp [generateBody, jsOrNum, h],
    fun id o => jsOrNum_ne_zero _ _ (by norm_num),
    fun id o => jsOrNum_ne_zero _ _ (by norm_num),
    fun id o => jsOrNum_ne_zero _ _ (by norm_num)⟩

/-- Witness for C9: requests built with explicit zeros carry the
defaults. -/
theorem falsy_options_witness :
    (convertBody "item1" ⟨none, some 0, some 0, none⟩).detail_level = 1 / 2 ∧
    (convertBody "item1" ⟨none, some 0, some 0, none⟩).line_thickness = 1 ∧
    (generateBody "item1" ⟨none, some 0, none, none, none⟩).variation_strength = 1 / 2 :=
  ⟨falsy_options_replaced_by_defaults.1 "item1" _ rfl,
   falsy_options_replaced_by_defaults.2.1 "item1" _ rfl,
   falsy_options_replaced_by_defaults.2.2.1 "item1" _ rfl⟩

lemma insertOrd_perm {α : Type _} (bef : α → α → Bool) (x : α) (l : List α) :
    (insertOrd bef x l).Perm (x :: l) := by
  induction l with
  | nil => exact List.Perm.refl _
  | cons y ys ih =>
      unfold insertOrd
      split_ifs
      · exact List.Perm.refl _
      · exact (List.Perm.cons y ih).trans (List.Perm.swap x y ys)

lemma sortOrd_foldl_perm {α : Type _} (bef : α → α → Bool) (l : List α) :
    ∀ acc : List α,
      (l.foldl (fun acc x => insertOrd bef x acc) acc).Perm (acc ++ l) := by
  induction l with
  | nil => intro acc; simp
  | cons x l ih =>
      intro acc
      have h1 := ih (insertOrd bef x acc)
      have h2 : (insertOrd bef x acc ++ l).Perm (acc ++ x :: l) :=
        ((insertOrd_perm bef x acc).append_right l).trans List.perm_middle.symm
      simpa using h1.trans h2

lemma sortOrd_perm {α : Type _} (bef : α → α → Bool) (l : List α) :
    (sortOrd bef l).Perm l := by
  simpa using sortOrd_foldl_perm bef l []

lemma mem_insertOrd {α : Type _} (bef : α → α → Bool) (x a : α) (l : List α) :
    a ∈ insertOrd bef x l ↔ a = x ∨ a ∈ l := by
  rw [(insertOrd_perm bef x l).mem_iff, List.mem_cons]

lemma pairwise_insertOrd_befCount (x : String × ℕ) (l : List (String × ℕ))
    (h : l.Pairwise fun a b => b.2 ≤ a.2) :
    (insertOrd befCount x l).Pairwise fun a b => b.2 ≤ a.2 := by
  induction l with
  | nil => simp [insertOrd]
  | cons y ys ih =>
      rw [List.pairwise_cons] at h
      unfold insertOrd
      split_ifs with hb
      · have hyx : y.2 < x.2 := of_decide_eq_true hb
        refine List.Pairwise.cons ?_ (List.Pairwise.cons h.1 h.2)
        intro b hbmem
        rcases List.mem_cons.1 hbmem with rfl | hbys
        · exact hyx.le
        · exact (h.1 b hbys).trans hyx.le
      · have hxy : x.2 ≤ y.2 := by
          simp only [befCount, decide_eq_true_eq] at hb
          exact le_of_not_lt hb
        refine List.Pairwise.cons ?_ (ih h.2)
        intro b hbmem
        rcases (mem_insertOrd befCount x b ys).1 hbmem with rfl | hbys
        · exact hxy
        · exact h.1 b hbys

lemma filter_insertOrd_befCount (x : String × ℕ) (l : List (String × ℕ)) (c : ℕ)
    (h : l.Pairwise fun a b => b.2 ≤ a.2) :
    (insertOrd befCount x l).filter (fun e => e.2 == c)
      = l.filter (fun e => e.2 == c) ++ if x.2 == c then [x] else [] := by
  induction l with
  | nil => cases hx : (x.2 == c) <;> simp [insertOrd, List.filter_cons, hx]
  | cons y ys ih =>
      rw [List.pairwise_cons] at h
      by_cases hb : befCount x y = true
      · have hyx : y.2 < x.2 := of_decide_eq_true hb
        rw [show insertOrd befCount x (y :: ys)
              = x :: y :: ys by rw [insertOrd, if_pos hb]]
        cases hx : (x.2 == c) with
        | false => simp [List.filter_cons, hx]
        | true =>
            have hxc : x.2 = c := by simpa using hx
            have hnil : (y :: ys).filter (fun e => e.2 == c) = [] := by
              refine List.filter_eq_nil_iff.2 fun e he => ?_
              have hle : e.2 ≤ y.2 := by
                rcases List.mem_cons.1 he with rfl | hys
                · exact le_refl _
                · exact h.1 e hys
              have hne : e.2 ≠ c := by omega
              simpa using hne
            simp [List.filter_cons, hx, hnil]
      · have hih := ih h.2
        rw [show insertOrd befCount x (y :: ys)
              = y :: insertOrd befCount x ys by rw [insertOrd, if_neg hb]]
        cases hy : (y.2 == c) <;>
          simp [List.filter_cons, hy, hih, List.cons_append]

lemma sortOrd_foldl_befCount (l : List (String × ℕ)) :
    ∀ acc : List (String × ℕ), (acc.Pairwise fun a b => b.2 ≤ a.2) →
      ((l.foldl (fun acc x => insertOrd befCount x acc) acc).Pairwise
        fun a b => b.2 ≤ a.2) ∧
      ∀ c, (l.foldl (fun acc x => insertOrd befCount x acc) acc).filter
          (fun e => e.2 == c)
        = acc.filter (fun e => e.2 == c) ++ l.filter (fun e => e.2 == c) := by
  induction l with
  | nil => intro acc h; exact ⟨h, fun c => by simp⟩
  | cons x l ih =>
      intro acc h
      obtain ⟨hs, hf⟩ := ih (insertOrd befCount x acc)
        (pairwise_insertOrd_befCount x acc h)
      refine ⟨hs, fun c => ?_⟩
      have hstep := filter_insertOrd_befCount x acc c h
      calc (List.foldl (fun acc x => insertOrd befCount x acc)
              (insertOrd befCount x acc) l).filter (fun e => e.2 == c)
          = (insertOrd befCount x acc).filter (fun e => e.2 == c)
              ++ l.filter (fun e => e.2 == c) := hf c
        _ = acc.filter (fun e => e.2 == c)
              ++ (x :: l).filter (fun e => e.2 == c) := by
            cases hx : (x.2 == c) <;>
              simp [hstep, hx, List.filter_cons, List.append_assoc]

/-- C4 counterexample: two sources with equal counts, listed in
name-descending order, are returned unchanged by the trends-page sort —
the claimed key-name-ascending tie-break does not happen. -/
theorem trends_sort_tie_counterexample :
    sortByCountDesc [("b", 1), ("a", 1)] = [("b", 1), ("a", 1)] ∧
    ¬ claimOrderC4 (sortByCountDesc [("b", 1), ("a", 1)]) := by
  constructor
  · rfl
  · intro h
    have h2 := (List.pairwise_cons.1 h).1 ("a", 1) (List.mem_singleton.2 rfl)
    rcases h2 with h2 | ⟨-, h2⟩
    · exact absurd h2 (by decide)
    · exact absurd h2 (by simp only [String.lt_iff_toList_lt]; decide)

/-- C4 amended: the trends-page sorts order the entries of a dimension
descending by count only; the output is a permutation of the input, and
entries with equal counts keep their original relative order (the sort is
stable) — there is no average-score or name tie-break. -/
theorem trends_sort_desc_stable (l : List (String × ℕ)) :
    (sortByCountDesc l).Perm l ∧
    ((sortByCountDesc l).Pairwise fun a b => b.2 ≤ a.2) ∧
    ∀ c, (sortByCountDesc l).filter (fun e => e.2 == c)
      = l.filter (fun e => e.2 == c) := by
  obtain ⟨hs, hf⟩ := sortOrd_foldl_befCount l [] (by simp)
  exact ⟨sortOrd_perm befCount l, hs, fun c => by simpa using hf c⟩

lemma abs_round1_sub (q : ℚ) : |round1 q - q| ≤ 1 / 20 := by
  have h := abs_sub_round (10 * q)
  rw [abs_sub_comm] at h
  unfold round1
  have heq : ((round (10 * q) : ℤ) : ℚ) / 10 - q
      = (((round (10 * q) : ℤ) : ℚ) - 10 * q) / 10 := by ring
  rw [heq, abs_div, show |(10 : ℚ)| = 10 by norm_num]
  linarith

lemma sum_round1_close (l : List ℚ) :
    |(l.map round1).sum - l.sum| ≤ (l.length : ℚ) * (1 / 20) := by
  induction l with
  | nil => simp
  | cons x xs ih =>
      have h1 := abs_round1_sub x
      have heq : round1 x + (xs.map round1).sum - (x + xs.sum)
          = (round1 x - x) + ((xs.map round1).sum - xs.sum) := by ring
      have h2 : |round1 x + (xs.map round1).sum - (x + xs.sum)|
          ≤ |round1 x - x| + |(xs.map round1).sum - xs.sum| := by
        rw [heq]; exact abs_add _ _
      simp only [List.map_cons, List.sum_cons, List.length_cons]
      push_cast
      linarith

lemma sum_map_scale (l : List String) (g : String → ℚ) (c : ℚ) :
    (l.map fun k => g k * c).sum = (l.map g).sum * c := by
  induction l with
  | nil => simp
  | cons k ks ih => simp only [List.map_cons, List.sum_cons, ih]; ring

lemma filter_length_eq_count (l : List (String × ℚ)) (k : String) :
    (l.filter fun r => r.1 == k).length = (l.map Prod.fst).count k := by
  rw [List.count, List.countP_map, ← List.countP_eq_length_filter]
  rfl

lemma aggregate_unrounded_sum (records : List (String × ℚ)) (h : records ≠ []) :
    ((records.map Prod.fst).dedup.map fun k =>
      (((records.filter fun r => r.1 == k).length : ℚ)
        / (records.length : ℚ) * 100)).sum = 100 := by
  have hN : (0 : ℚ) < (records.length : ℚ) := by
    exact_mod_cast List.length_pos.2 h
  have hNe : (records.length : ℚ) ≠ 0 := ne_of_gt hN
  have hrw : ((records.map Prod.fst).dedup.map fun k =>
        (((records.filter fun r => r.1 == k).length : ℚ)
          / (records.length : ℚ) * 100))
      = (records.map Prod.fst).dedup.map fun k =>
        (((records.map Prod.fst).count k : ℚ) * (100 / (records.length : ℚ))) := by
    refine List.map_congr_left fun k _ => ?_
    rw [filter_length_eq_count]
    ring
  rw [hrw, sum_map_scale]
  have hcast : ((records.map Prod.fst).dedup.map fun k =>
        (((records.map Prod.fst).count k : ℕ) : ℚ)).sum
      = (((records.map Prod.fst).dedup.map fun k =>
          (records.map Prod.fst).count k).sum : ℕ) := by
    rw [Nat.cast_list_sum, List.map_map]
    rfl
  rw [hcast, List.sum_map_count_dedup_eq_length, List.length_map]
  field_simp

/-- C5 counterexample: six groups of one record each give percentage
round1(100/6) = 16.7 apiece, so the percentages sum to 100.2, outside
100 ± 0.1. -/
theorem percentage_sum_counterexample :
    ((aggregate demoRecords6).map fun a => a.percentage).sum = 501 / 5 ∧
    ¬ |((aggregate demoRecords6).map fun a => a.percentage).sum - 100| ≤ 1 / 10 := by
  have hperm : (aggregate demoRecords6).Perm
      ((demoRecords6.map Prod.fst).dedup.map (groupFor demoRecords6)) :=
    sortOrd_perm _ _
  have hsum : ((aggregate demoRecords6).map fun a => a.percentage).sum
      = (((demoRecords6.map Prod.fst).dedup.map (groupFor demoRecords6)).map
          fun a => a.percentage).sum :=
    (hperm.map fun a => a.percentage).sum_eq
  have hcomp : (((demoRecords6.map Prod.fst).dedup.map (groupFor demoRecords6)).map
      fun a => a.percentage).sum = 501 / 5 := by
    have hkeys : (demoRecords6.map Prod.fst).dedup
        = ["a", "b", "c", "d", "e", "f"] := by decide
    rw [hkeys]
    have hval : round1 ((50 : ℚ) / 3) = 167 / 10 := by
      unfold round1
      rw [round_eq]
      norm_num
    have hfa : (demoRecords6.filter fun r => r.1 == "a").length = 1 := rfl
    have hfb : (demoRecords6.filter fun r => r.1 == "b").length = 1 := rfl
    have hfc : (demoRecords6.filter fun r => r.1 == "c").length = 1 := rfl
    have hfd : (demoRecords6.filter fun r => r.1 == "d").length = 1 := rfl
    have hfe : (demoRecords6.filter fun r => r.1 == "e").length = 1 := rfl
    have hff : (demoRecords6.filter fun r => r.1 == "f").length = 1 := rfl
    have hlen : demoRecords6.length = 6 := rfl
    simp only [List.map_cons, List.map_nil, groupFor, List.sum_cons, List.sum_nil,
      hfa, hfb, hfc, hfd, hfe, hff, hlen]
    norm_num [hval]
  constructor
  · rw [hsum, hcomp]
  · rw [hsum, hcomp]
    rw [show (501 : ℚ) / 5 - 100 = 1 / 5 by norm_num]
    rw [abs_of_pos (by norm_num : (0 : ℚ) < 1 / 5)]
    norm_num

/-- C5 amended: each aggregate's percentage is count / total × 100
rounded to one decimal, and across the groups of one dimension the
percentages sum to 100 within ± 0.05 per group (1/20 times the number of
groups); the fixed ± 0.1 bound of the claim fails once more than two
groups round the same way. -/
theorem aggregate_percentage_sum (records : List (String × ℚ)) (h : records ≠ []) :
    (∀ a ∈ aggregate records, a.percentage
        = round1 ((a.count : ℚ) / (records.length : ℚ) * 100)) ∧
    |((aggregate records).map fun a => a.percentage).sum - 100|
      ≤ ((aggregate records).length : ℚ) * (1 / 20) := by
  have hperm : (aggregate records).Perm
      ((records.map Prod.fst).dedup.map (groupFor records)) :=
    sortOrd_perm _ _
  constructor
  · intro a ha
    obtain ⟨k, hk, rfl⟩ := List.mem_map.1 (hperm.mem_iff.1 ha)
    rfl
  · have hmapeq : ((records.map Prod.fst).dedup.map (groupFor records)).map
          (fun a => a.percentage)
        = ((records.map Prod.fst).dedup.map fun k =>
            (((records.filter fun r => r.1 == k).length : ℚ)
              / (records.length : ℚ) * 100)).map round1 := by
      rw [List.map_map, List.map_map]
      rfl
    have hsum : ((aggregate records).map fun a => a.percentage).sum
        = (((records.map Prod.fst).dedup.map fun k =>
            (((records.filter fun r => r.1 == k).length : ℚ)
              / (records.length : ℚ) * 100)).map round1).sum := by
      rw [(hperm.map fun a => a.percentage).sum_eq, hmapeq]
    have hlen : ((aggregate records).length : ℚ)
        = (((records.map Prod.fst).dedup.map fun k =>
            (((records.filter fun r => r.1 == k).length : ℚ)
              / (records.length : ℚ) * 100)).length : ℚ) := by
      rw [hperm.length_eq, List.length_map, List.length_map]
    rw [hsum, hlen]
    have hclose := sum_round1_close ((records.map Prod.fst).dedup.map fun k =>
      (((records.filter fun r => r.1 == k).length : ℚ)
        / (records.length : ℚ) * 100))
    rw [aggregate_unrounded_sum records h] at hclose
    exact hclose

/-- Witness for the amended C5 at a one-record collection. -/
theorem aggregate_percentage_sum_witness :
    |((aggregate [("a", (50 : ℚ))]).map fun a => a.percentage).sum - 100|
      ≤ ((aggregate [("a", (50 : ℚ))]).length : ℚ) * (1 / 20) :=
  (aggregate_percentage_sum [("a", (50 : ℚ))] (by simp)).2

/-- C6: aggregating an empty collection yields an empty list — both for
the spec-modelled aggregator and for the trending-page fallback grouping
— and, both being total functions, no error is raised. -/
theorem aggregate_empty :
    aggregate [] = [] ∧ groupBySource [] = [] :=
  ⟨rfl, rfl⟩

lemma upd_fst (p : TProduct) (e : String × BrandGroup) :
    (if e.1 == keyOf p then (e.1, pushProduct e.2 p) else e).1 = e.1 := by
  split_ifs <;> rfl

lemma map_upd_fst (p : TProduct) (st : List (String × BrandGroup)) :
    ((st.map fun e => if e.1 == keyOf p then (e.1, pushProduct e.2 p) else e).map
      Prod.fst) = st.map Prod.fst := by
  rw [List.map_map]
  exact List.map_congr_left fun e _ => upd_fst p e

lemma sum_map_update (p : TProduct) (k : String) :
    ∀ st : List (String × BrandGroup),
      (st.map Prod.fst).Nodup → (∃ e ∈ st, e.1 = k) →
      ((st.map fun e => if e.1 == k then (e.1, pushProduct e.2 p) else e).map
        fun e => e.2.total_count).sum
      = ((st.map fun e => e.2.total_count).sum) + 1 := by
  intro st
  induction st with
  | nil =>
      intro hnd hex
      obtain ⟨e, he, -⟩ := hex
      exact absurd he (List.not_mem_nil e)
  | cons a st ih =>
      intro hnd hex
      simp only [List.map_cons] at hnd
      by_cases ha : (a.1 == k) = true
      · have hak : a.1 = k := beq_iff_eq.mp ha
        have hnotin : k ∉ st.map Prod.fst := hak ▸ (List.nodup_cons.1 hnd).1
        have htail : (st.map fun e =>
            if e.1 == k then (e.1, pushProduct e.2 p) else e) = st := by
          calc st.map (fun e => if e.1 == k then (e.1, pushProduct e.2 p) else e)
              = st.map id := List.map_congr_left fun e he => by
                have hek : e.1 ≠ k := fun heq =>
                  hnotin (heq ▸ List.mem_map_of_mem Prod.fst he)
                rw [if_neg (by simpa using hek)]
                rfl
            _ = st := List.map_id st
        simp only [List.map_cons, if_pos ha, List.sum_cons, htail]
        simp only [pushProduct]
        omega
      · have hak : a.1 ≠ k := by simpa using ha
        obtain ⟨e, he, hek⟩ := hex
        rcases List.mem_cons.1 he with rfl | hest
        · exact absurd hek hak
        have hrec := ih (List.nodup_cons.1 hnd).2 ⟨e, hest, hek⟩
        simp only [List.map_cons, if_neg ha, List.sum_cons, hrec]
        omega

lemma stepGroup_inv (pre : List TProduct) (st : List (String × BrandGroup))
    (p : TProduct) (h : GroupInv pre st) : GroupInv (pre ++ [p]) (stepGroup st p) := by
  unfold GroupInv at h ⊢
  obtain ⟨hnd, hent, hsum, hcomp⟩ := h
  by_cases hany : (st.any fun e => e.1 == keyOf p) = true
  · have hstep : stepGroup st p
        = st.map fun e => if e.1 == keyOf p then (e.1, pushProduct e.2 p) else e := by
      unfold stepGroup
      rw [if_pos hany]
    obtain ⟨w, hw, hwk⟩ : ∃ e ∈ st, e.1 = keyOf p := by
      simpa [List.any_eq_true] using hany
    refine ⟨?_, ?_, ?_, ?_⟩
    · rw [hstep, map_upd_fst]
      exact hnd
    · rw [hstep]
      intro e' he'
      obtain ⟨e, he, rfl⟩ := List.mem_map.1 he'
      by_cases hk : (e.1 == keyOf p) = true
      · have hkey : e.1 = keyOf p := beq_iff_eq.mp hk
        obtain ⟨hc, hpr⟩ := hent e he
        rw [if_pos hk]
        have hcount : (pre ++ [p]).countP (fun q => keyOf q == e.1)
            = pre.countP (fun q => keyOf q == e.1) + 1 := by
          rw [List.countP_append]
          simp [List.countP_cons, hkey]
        have hfil : (pre ++ [p]).filter (fun q => keyOf q == e.1)
            = pre.filter (fun q => keyOf q == e.1) ++ [p] := by
          rw [List.filter_append]
          simp [List.filter_cons, hkey]
        constructor
        · show (pushProduct e.2 p).total_count = _
          rw [hcount, ← hc]
          rfl
        · show (pushProduct e.2 p).products = _
          rw [hfil]
          show (if e.2.products.length < 10
              then e.2.products ++ [p] else e.2.products) = _
          rw [hpr]
          by_cases hxl : (pre.filter fun q => keyOf q == e.1).length < 10
          · rw [if_pos (by rw [List.length_take]; omega)]
            rw [List.take_of_length_le hxl.le,
              List.take_of_length_le (by simp; omega)]
          · rw [if_neg (by rw [List.length_take]; omega)]
            rw [List.take_append_eq_append_take,
              show 10 - (pre.filter fun q => keyOf q == e.1).length = 0 by omega]
            simp
      · have hkey : e.1 ≠ keyOf p := by simpa using hk
        rw [if_neg hk]
        obtain ⟨hc, hpr⟩ := hent e he
        constructor
        · rw [List.countP_append]
          have hbf : (keyOf p == e.1) = false := by
            simp only [beq_eq_false_iff_ne, ne_eq]
            exact fun heq => hkey heq.symm
          have h0 : ([p]).countP (fun q => keyOf q == e.1) = 0 := by
            simp [List.countP_cons, hbf]
          rw [h0]
          omega
        · rw [List.filter_append]
          have hbf : (keyOf p == e.1) = false := by
            simp only [beq_eq_false_iff_ne, ne_eq]
            exact fun heq => hkey heq.symm
          have h0 : ([p]).filter (fun q => keyOf q == e.1) = [] := by
            simp [List.filter_cons, hbf]
          rw [h0, List.append_nil]
          exact hpr
    · rw [hstep, sum_map_update p (keyOf p) st hnd ⟨w, hw, hwk⟩, hsum,
        List.length_append]
      rfl
    · intro q hq
      rcases List.mem_append.1 hq with hq | hq
      · obtain ⟨e, he, hek⟩ := hcomp q hq
        refine ⟨if e.1 == keyOf p then (e.1, pushProduct e.2 p) else e, ?_, ?_⟩
        · rw [hstep]
          exact List.mem_map_of_mem _ he
        · rw [upd_fst]
          exact hek
      · have hqp : q = p := by simpa using hq
        subst hqp
        refine ⟨if w.1 == keyOf q then (w.1, pushProduct w.2 q) else w, ?_, ?_⟩
        · rw [hstep]
          exact List.mem_map_of_mem _ hw
        · rw [upd_fst]
          exact hwk
  · have hnone : ∀ e ∈ st, e.1 ≠ keyOf p := by
      intro e he heq
      exact hany (List.any_eq_true.2 ⟨e, he, by simpa using heq⟩)
    have hmapid : (st.map fun e =>
        if e.1 == keyOf p then (e.1, pushProduct e.2 p) else e) = st := by
      calc st.map (fun e => if e.1 == keyOf p then (e.1, pushProduct e.2 p) else e)
          = st.map id := List.map_congr_left fun e he => by
            rw [if_neg (by simpa using hnone e he)]
            rfl
        _ = st := List.map_id st
    have hstep : stepGroup st p
        = st ++ [(keyOf p, pushProduct (newGroup (keyOf p)) p)] := by
      unfold stepGroup
      rw [if_neg hany, List.map_append, hmapid]
      simp only [List.map_cons, List.map_nil]
      rw [if_pos (by simp)]
    have hcnt0 : pre.countP (fun q => keyOf q == keyOf p) = 0 := by
      rw [List.countP_eq_zero]
      intro q hq hqk
      obtain ⟨e, he, hek⟩ := hcomp q hq
      exact hnone e he (by rw [hek, beq_iff_eq.mp hqk])
    refine ⟨?_, ?_, ?_, ?_⟩
    · rw [hstep, List.map_append, List.nodup_append]
      refine ⟨hnd, by simp, ?_⟩
      intro a ha hb
      simp only [List.map_cons, List.map_nil, List.mem_singleton] at hb
      obtain ⟨e, he, hek⟩ := List.mem_map.1 ha
      exact hnone e he (hek.trans hb)
    · rw [hstep]
      intro e' he'
      rcases List.mem_append.1 he' with he' | he'
      · have hkey : e'.1 ≠ keyOf p := hnone e' he'
        obtain ⟨hc, hpr⟩ := hent e' he'
        constructor
        · rw [List.countP_append]
          have hbf : (keyOf p == e'.1) = false := by
            simp only [beq_eq_false_iff_ne, ne_eq]
            exact fun heq => hkey heq.symm
          have h0 : ([p]).countP (fun q => keyOf q == e'.1) = 0 := by
            simp [List.countP_cons, hbf]
          rw [h0]
          omega
        · rw [List.filter_append]
          have hbf : (keyOf p == e'.1) = false := by
            simp only [beq_eq_false_iff_ne, ne_eq]
            exact fun heq => hkey heq.symm
          have h0 : ([p]).filter (fun q => keyOf q == e'.1) = [] := by
            simp [List.filter_cons, hbf]
          rw [h0, List.append_nil]
          exact hpr
      · have he'' : e' = (keyOf p, pushProduct (newGroup (keyOf p)) p) := by
          simpa using he'
        subst he''
        constructor
        · show (pushProduct (newGroup (keyOf p)) p).total_count
              = (pre ++ [p]).countP fun q => keyOf q == keyOf p
          rw [List.countP_append, hcnt0]
          simp [List.countP_cons, pushProduct, newGroup]
        · show (pushProduct (newGroup (keyOf p)) p).products
              = ((pre ++ [p]).filter fun q => keyOf q == keyOf p).take 10
          rw [List.filter_append,
            List.filter_eq_nil_iff.2 fun q hq hqk =>
              absurd (List.countP_eq_zero.1 hcnt0 q hq) (by simp [hqk])]
          simp [List.filter_cons, pushProduct, newGroup]
    · rw [hstep, List.map_append]
      simp only [List.map_cons, List.map_nil, List.sum_append, List.sum_cons,
        List.sum_nil, hsum, List.length_append, List.length_cons, List.length_nil]
      simp [pushProduct, newGroup]
    · intro q hq
      rcases List.mem_append.1 hq with hq | hq
      · obtain ⟨e, he, hek⟩ := hcomp q hq
        exact ⟨e, by rw [hstep]; exact List.mem_append_left _ he, hek⟩
      · have hqp : q = p := by simpa using hq
        subst hqp
        exact ⟨(keyOf q, pushProduct (newGroup (keyOf q)) q),
          by rw [hstep]; exact List.mem_append_right _ (by simp), rfl⟩

lemma groupBySource_inv (ps : List TProduct) :
    ∀ (st : List (String × BrandGroup)) (pre : List TProduct), GroupInv pre st →
      GroupInv (pre ++ ps) (ps.foldl stepGroup st) := by
  induction ps with
  | nil =>
      intro st pre h
      simpa using h
  | cons p ps ih =>
      intro st pre h
      have h2 := ih (stepGroup st p) (pre ++ [p]) (stepGroup_inv pre st p h)
      simpa [List.append_assoc] using h2

/-- C10: in the trending-page fallback grouping, the group keys are
distinct, each group's total_count is the number of input products with
that (normalized) source key, its products list is exactly the first
min(10, total_count) such products in input order, and the group totals
sum to the input length, so every product is counted in exactly one
group. -/
theorem trending_fallback_grouping (ps : List TProduct) :
    ((groupBySource ps).map Prod.fst).Nodup ∧
    (∀ e ∈ groupBySource ps,
      e.2.total_count = ps.countP (fun p => keyOf p == e.1) ∧
      e.2.products = (ps.filter fun p => keyOf p == e.1).take 10) ∧
    ((groupBySource ps).map fun e => e.2.total_count).sum = ps.length := by
  have h := groupBySource_inv ps [] []
    (by unfold GroupInv; exact ⟨by simp, by simp, by simp, by simp⟩)
  unfold GroupInv at h
  simp only [List.nil_append] at h
  exact ⟨h.1, h.2.1, h.2.2.1⟩

/-- Witness for C10 at a three-product list: the "x.com" group counts
two products and stores both in input order. -/
theorem trending_fallback_grouping_witness :
    (⟨brandNameOf "x.com", 2, [demoP1, demoP2]⟩ : BrandGroup).total_count
        = demoPs.countP (fun p => keyOf p == "x.com") ∧
    (⟨brandNameOf "x.com", 2, [demoP1, demoP2]⟩ : BrandGroup).products
        = (demoPs.filter fun p => keyOf p == "x.com").take 10 ∧
    demoPs.countP (fun p => keyOf p == "x.com") = 2 := by
  have h := (trending_fallback_grouping demoPs).2.1
    ("x.com", (⟨brandNameOf "x.com", 2, [demoP1, demoP2]⟩ : BrandGroup))
    (List.mem_cons_self _ _)
  exact ⟨h.1, h.2, rfl⟩

end TrendMuse
